import Mathlib

/-!
Verification of the VRPTW evolutionary-algorithm core
(files vrptw_solution.py, genetic_operators.py, evolutionary_algorithm.py).

The Python code is shallowly embedded: customer records and the distance
table become a structure of total functions, routes are lists of customer
identifiers, money-free quantities (demands, capacities) are integers and
distances and times are rationals.  Stateful loops become folds or
explicit recursions; the one unbounded `while` loop of the order-crossover
helper is modelled with fuel, with `none` standing for nontermination.
-/

namespace VRPTW

/-- Customer record as returned by VRPTWData.get_customer_data
(vrptw_data.py): only the fields read by the core are kept. -/
structure CustomerData where
  demand : Int
  ready_time : Rat
  due_date : Rat
  service_time : Rat
deriving DecidableEq

/-- The data provider (VRPTWData): get_customer_data and get_distance. -/
structure VRPTWData where
  get_customer_data : Nat → CustomerData
  get_distance : Nat → Nat → Rat

/-- Accumulated demand of a route: the sum of its customers demands. -/
def routeDemand (data : VRPTWData) (route : List Nat) : Int :=
  (route.map (fun c => (data.get_customer_data c).demand)).sum

/-- Loop body of GeneticOperators._sequence_to_solution
(genetic_operators.py lines 177-202): walk the sequence, accumulating a
current route and its demand; when adding the next customer would push the
demand over vehicle_capacity, close the current route (kept only if
non-empty) and start a new one with that customer. -/
def seqToSolutionLoop (data : VRPTWData) (vehicle_capacity : Int) :
    List Nat → List (List Nat) → List Nat → Int → List (List Nat)
  | [], routes, current_route, _ =>
      if current_route = [] then routes else routes ++ [current_route]
  | customer_id :: rest, routes, current_route, current_demand =>
      let demand := (data.get_customer_data customer_id).demand
      if vehicle_capacity < current_demand + demand then
        seqToSolutionLoop data vehicle_capacity rest
          (if current_route = [] then routes else routes ++ [current_route])
          [customer_id] demand
      else
        seqToSolutionLoop data vehicle_capacity rest routes
          (current_route ++ [customer_id]) (current_demand + demand)

/-- GeneticOperators._sequence_to_solution: decode a flat customer
sequence into a list of routes by greedy capacity bin-packing. -/
def sequence_to_solution (data : VRPTWData) (vehicle_capacity : Int)
    (sequence : List Nat) : List (List Nat) :=
  seqToSolutionLoop data vehicle_capacity sequence [] [] 0

/-- Data set with a single relevant customer of demand 300 (time windows
wide open, all distances zero). -/
def exDataBig : VRPTWData :=
  { get_customer_data := fun _ => ⟨300, 0, 1000, 0⟩
    get_distance := fun _ _ => 0 }

/-- Data set where every customer has demand 50. -/
def exDataFifty : VRPTWData :=
  { get_customer_data := fun _ => ⟨50, 0, 1000, 0⟩
    get_distance := fun _ _ => 0 }

/-- Data set with demand 100 everywhere, used for witnesses. -/
def exDataHundred : VRPTWData :=
  { get_customer_data := fun _ => ⟨100, 0, 1000, 0⟩
    get_distance := fun _ _ => 0 }

/-- Data set with demand 250 everywhere, wide-open time windows and zero
distances. -/
def exDataC6 : VRPTWData :=
  { get_customer_data := fun _ => ⟨250, 0, 1000000, 0⟩
    get_distance := fun _ _ => 0 }

/-- One iteration of the customer loop of
VRPTWSolution._evaluate_route (vrptw_solution.py lines 101-123).  The
state is (distance, demand, current_time, feasible, prev_customer).  The
Python order is kept: travel distance is added to both distance and time,
then the time window is checked (wait if early, mark infeasible if the
arrival is past the due date), then service time and demand are added. -/
def evalStep (data : VRPTWData) :
    Rat × Int × Rat × Bool × Nat → Nat → Rat × Int × Rat × Bool × Nat
  | (distance, demand, current_time, feasible, prev_customer),
    customer_id =>
      let customer := data.get_customer_data customer_id
      let travel_dist := data.get_distance prev_customer customer_id
      let arrival := current_time + travel_dist
      (distance + travel_dist,
       demand + customer.demand,
       (if arrival < customer.ready_time then customer.ready_time
        else arrival) + customer.service_time,
       (if arrival < customer.ready_time then feasible
        else if customer.due_date < arrival then false else feasible),
       customer_id)

/-- VRPTWSolution._evaluate_route (vrptw_solution.py lines 90-136):
returns (distance, demand, feasible).  An empty route is (0, 0, true);
otherwise the customer loop runs, then the return leg to the depot is
added, the depot due date is checked, and finally demand is compared
against the hard-coded constant 200 (the source line is
"if demand > 200", not the configured vehicle capacity). -/
def evaluate_route (data : VRPTWData) (customers : List Nat) :
    Rat × Int × Bool :=
  match customers with
  | [] => (0, 0, true)
  | _ =>
      match customers.foldl (evalStep data) (0, 0, 0, true, 0) with
      | (distance, demand, current_time, feasible, prev_customer) =>
          let ret := data.get_distance prev_customer 0
          let distance1 := distance + ret
          let time1 := current_time + ret
          let feasible1 :=
            if (data.get_customer_data 0).due_date < time1 then false
            else feasible
          let feasible2 := if (200 : Int) < demand then false else feasible1
          (distance1, demand, feasible2)

/-- Sum of the travel legs prev -> c1 -> c2 -> ... -> cn (without the
final return to the depot). -/
def legsFrom (data : VRPTWData) : Nat → List Nat → Rat
  | _, [] => 0
  | prev, c :: cs => data.get_distance prev c + legsFrom data c cs

/-- Last stop of a route started at prev. -/
def lastStop : Nat → List Nat → Nat
  | prev, [] => prev
  | _, c :: cs => lastStop c cs

/-- Specification-side route distance: the sum of the travel legs
depot -> first customer -> ... -> last customer -> depot, and 0 for an
empty route.  Mentions no time-window data at all. -/
def routeDistanceSpec (data : VRPTWData) (customers : List Nat) : Rat :=
  match customers with
  | [] => 0
  | _ => legsFrom data 0 customers + data.get_distance (lastStop 0 customers) 0

/-- VRPTWSolution (vrptw_solution.py): routes plus the derived metric
fields written by calculate_metrics and the fitness field. -/
structure VRPTWSolutionM where
  routes : List (List Nat)
  num_vehicles : Nat
  total_distance : Rat
  feasible : Bool
  fitness : Rat
deriving DecidableEq

/-- EvolutionaryVRPTW._calculate_fitness (evolutionary_algorithm.py lines
69-91): penalty 100000 when infeasible, then
num_vehicles * 10000 + total_distance + penalty. -/
def calculate_fitness (solution : VRPTWSolutionM) : Rat :=
  let penalty : Rat := if solution.feasible then 0 else 100000
  (solution.num_vehicles : Rat) * 10000 + solution.total_distance + penalty

/-- The sort at the top of each generation of evolve
(evolutionary_algorithm.py line 125): sorted(population, key fitness),
ascending and stable, which mergeSort with a total Bool order models. -/
def sortByFitness (population : List VRPTWSolutionM) : List VRPTWSolutionM :=
  population.mergeSort (fun a b => decide (a.fitness ≤ b.fitness))

/-- One generation step of evolve (evolutionary_algorithm.py lines
122-146): the next population is the elitism_count best individuals of
the sorted current population followed by the bred offspring.  The
offspring list is a parameter: it stands for the outcome of the random
selection / crossover / mutation / evaluation loop, so a theorem
quantifying over it covers every draw of the random source. -/
def nextGeneration (elitism_count : Nat)
    (population offspring : List VRPTWSolutionM) : List VRPTWSolutionM :=
  (sortByFitness population).take elitism_count ++ offspring

/-- EvolutionaryVRPTW.__init__ (evolutionary_algorithm.py lines 16-49):
the constructor only stores its arguments; the source performs no
validation of any kind, so the embedded constructor is a total function
with no error outcome. -/
structure EvolutionaryVRPTW where
  population_size : Nat
  generations : Nat
  crossover_rate : Rat
  mutation_rate : Rat
  tournament_size : Nat
  elitism_count : Nat
  vehicle_capacity : Int
deriving DecidableEq

/-- The constructor body: store every argument unchanged. -/
def EvolutionaryVRPTW.init (population_size generations : Nat)
    (crossover_rate mutation_rate : Rat)
    (tournament_size elitism_count : Nat)
    (vehicle_capacity : Int) : EvolutionaryVRPTW :=
  ⟨population_size, generations, crossover_rate, mutation_rate,
   tournament_size, elitism_count, vehicle_capacity⟩

/-- GeneticOperators.tournament_selection (genetic_operators.py lines
25-38): random.sample(population, tournament_size) followed by min by
fitness.  The draw parameter stands for the random sample; none models
the ValueError random.sample raises when the tournament size exceeds the
population size (and the TypeError of min on an empty sample).  min with
a key returns the first minimum, which the fold below reproduces. -/
def tournament_selection (population : List VRPTWSolutionM)
    (tournament_size : Nat) (draw : List VRPTWSolutionM) :
    Option VRPTWSolutionM :=
  if tournament_size ≤ population.length then
    match draw with
    | [] => none
    | t :: ts =>
        some (ts.foldl
          (fun best x => if x.fitness < best.fitness then x else best) t)
  else none

/-- A solution value with the given fitness, for concrete instances. -/
def mkSol (fitness : Rat) : VRPTWSolutionM :=
  ⟨[[1]], 1, 0, true, fitness⟩

/-- The inner while loop of GeneticOperators._ox_crossover_sequence
(genetic_operators.py lines 95-96): advance current_pos modulo size until
an unfilled slot is found.  The loop has no bound in the source and would
run forever if every slot were filled; it is modelled with fuel, none
standing for nontermination.  Callers pass fuel equal to the slot count,
which the termination proof shows is always enough. -/
def scanOpen (offspring : List (Option Nat)) (pos fuel : Nat) : Option Nat :=
  match fuel with
  | 0 => none
  | fuel + 1 =>
      if (offspring.getD pos none).isSome then
        scanOpen offspring ((pos + 1) % offspring.length) fuel
      else some pos

/-- The filler for loop of GeneticOperators._ox_crossover_sequence
(genetic_operators.py lines 92-99): for each gene, reset current_pos to 0
if it ran past the end, scan for the next unfilled slot, write the gene
there and advance.  none propagates a non-terminating inner scan. -/
def fillLoop (offspring : List (Option Nat)) (current_pos : Nat) :
    List Nat → Option (List (Option Nat))
  | [] => some offspring
  | gene :: rest =>
      let size := offspring.length
      let pos0 := if size ≤ current_pos then 0 else current_pos
      match scanOpen offspring pos0 size with
      | none => none
      | some p => fillLoop (offspring.set p (some gene)) ((p + 1) % size) rest

/-- GeneticOperators._ox_crossover_sequence (genetic_operators.py lines
80-101): the offspring starts as size copies of None, the slice
offspring[point1:point2] receives parent1[point1:point2] (written here in
take/append form, which agrees with the Python slice assignment whenever
point1 is at most point2 is at most size), parent2 is filtered to the
values outside the copied segment, and the filler loop places them
starting at point2 with wrap-around.  The result is the raw offspring
slot list. -/
def ox_crossover_sequence (parent1 parent2 : List Nat)
    (point1 point2 : Nat) : Option (List (Option Nat)) :=
  let size := parent1.length
  let segment := (parent1.drop point1).take (point2 - point1)
  let offspring0 : List (Option Nat) :=
    List.replicate point1 none ++ segment.map some ++
      List.replicate (size - point2) none
  let parent2_filtered := parent2.filter (fun x => !decide (x ∈ segment))
  fillLoop offspring0 point2 parent2_filtered

end VRPTW

namespace VRPTW

theorem seqToSolutionLoop_flatten (data : VRPTWData) (cap : Int)
    (seq : List Nat) : ∀ (routes : List (List Nat)) (cr : List Nat) (cd : Int),
    (seqToSolutionLoop data cap seq routes cr cd).flatten =
      routes.flatten ++ cr ++ seq := by
  induction seq with
  | nil =>
      intro routes cr cd
      by_cases h : cr = [] <;>
        simp [seqToSolutionLoop, h]
  | cons c rest ih =>
      intro routes cr cd
      by_cases h : cap < cd + (data.get_customer_data c).demand
      · by_cases hcr : cr = [] <;>
          simp [seqToSolutionLoop, h, hcr, ih]
      · simp [seqToSolutionLoop, h, ih]

theorem seqToSolutionLoop_routes_ok (data : VRPTWData) (cap : Int)
    (seq : List Nat)
    (hdem : ∀ c ∈ seq, 0 ≤ (data.get_customer_data c).demand ∧
      (data.get_customer_data c).demand ≤ cap) :
    ∀ (routes : List (List Nat)) (cr : List Nat) (cd : Int),
    (∀ r ∈ routes, r ≠ [] ∧ routeDemand data r ≤ cap) →
    routeDemand data cr = cd →
    cd ≤ cap →
    ∀ r ∈ seqToSolutionLoop data cap seq routes cr cd,
      r ≠ [] ∧ routeDemand data r ≤ cap := by
  induction seq with
  | nil =>
      intro routes cr cd hroutes hcr hle r hr
      by_cases h : cr = []
      · simp [seqToSolutionLoop, h] at hr
        exact hroutes r hr
      · simp [seqToSolutionLoop, h] at hr
        rcases hr with hr | hr
        · exact hroutes r hr
        · subst hr
          exact ⟨h, hcr ▸ hle⟩
  | cons c rest ih =>
      intro routes cr cd hroutes hcr hle r hr
      have hdc := hdem c (List.mem_cons_self c rest)
      have hdem' : ∀ x ∈ rest, 0 ≤ (data.get_customer_data x).demand ∧
          (data.get_customer_data x).demand ≤ cap :=
        fun x hx => hdem x (List.mem_cons_of_mem c hx)
      by_cases h : cap < cd + (data.get_customer_data c).demand
      · simp only [seqToSolutionLoop, if_pos h] at hr
        refine ih hdem' _ _ _ ?_ ?_ ?_ r hr
        · intro r' hr'
          by_cases hcrnil : cr = []
          · simp [hcrnil] at hr'
            exact hroutes r' hr'
          · simp [hcrnil] at hr'
            rcases hr' with hr' | hr'
            · exact hroutes r' hr'
            · subst hr'
              exact ⟨hcrnil, hcr ▸ hle⟩
        · simp [routeDemand]
        · exact hdc.2
      · simp only [seqToSolutionLoop, if_neg h] at hr
        refine ih hdem' _ _ _ hroutes ?_ ?_ r hr
        · simp [routeDemand] at hcr ⊢
          omega
        · omega

/-- C1 (amended): for every customer sequence whose demands are
non-negative and at most the vehicle capacity, the sequence decoder
produces routes whose concatenation is exactly the input sequence (so a
permutation of the full customer set is covered with no duplication and
no omission), every retained route is non-empty, and no route exceeds the
capacity. -/
theorem sequence_to_solution_valid (data : VRPTWData) (cap : Int)
    (seq : List Nat)
    (hdem : ∀ c ∈ seq, 0 ≤ (data.get_customer_data c).demand ∧
      (data.get_customer_data c).demand ≤ cap) :
    (sequence_to_solution data cap seq).flatten = seq ∧
    ∀ r ∈ sequence_to_solution data cap seq,
      r ≠ [] ∧ routeDemand data r ≤ cap := by
  constructor
  · simpa using seqToSolutionLoop_flatten data cap seq [] [] 0
  · cases seq with
    | nil =>
        intro r hr
        simp [sequence_to_solution, seqToSolutionLoop] at hr
    | cons c rest =>
        have hc := hdem c (List.mem_cons_self c rest)
        have hcap : (0 : Int) ≤ cap := le_trans hc.1 hc.2
        intro r hr
        exact seqToSolutionLoop_routes_ok data cap _ hdem [] [] 0
          (by simp) (by simp [routeDemand]) hcap r hr

/-- Witness for C1: three customers of demand 100 with capacity 200. -/
theorem sequence_to_solution_valid_witness :
    (sequence_to_solution exDataHundred 200 [1, 2, 3]).flatten = [1, 2, 3] ∧
    ∀ r ∈ sequence_to_solution exDataHundred 200 [1, 2, 3],
      r ≠ [] ∧ routeDemand exDataHundred r ≤ 200 :=
  sequence_to_solution_valid exDataHundred 200 [1, 2, 3] (by decide)

/-- Counterexample to C1 as stated: a single customer whose demand 300
exceeds the capacity 200 is decoded into a retained route whose
accumulated demand exceeds the capacity. -/
theorem sequence_to_solution_capacity_violation :
    sequence_to_solution exDataBig 200 [1] = [[1]] ∧
    ¬ routeDemand exDataBig [1] ≤ 200 := by decide

/-- Counterexample to C7 as stated: with capacity 200 and demands 50
everywhere, decoding the identity permutation of six customers does not
yield routes of demand 150 and 150. -/
theorem decode_identity_not_150_150 :
    ¬ ((sequence_to_solution exDataFifty 200 [1, 2, 3, 4, 5, 6]).map
      (routeDemand exDataFifty) = [150, 150]) := by decide

/-- C7 (amended): the decoder splits only when the next customer would
push the demand strictly over capacity, so the identity permutation of
six customers of demand 50 with capacity 200 decodes into exactly the two
routes [1, 2, 3, 4] and [5, 6], of accumulated demands 200 and 100. -/
theorem decode_identity_demands :
    sequence_to_solution exDataFifty 200 [1, 2, 3, 4, 5, 6] =
      [[1, 2, 3, 4], [5, 6]] ∧
    (sequence_to_solution exDataFifty 200 [1, 2, 3, 4, 5, 6]).map
      (routeDemand exDataFifty) = [200, 100] := by decide

theorem foldl_evalStep_fst (data : VRPTWData) (customers : List Nat) :
    ∀ (d : Rat) (q : Int) (t : Rat) (f : Bool) (prev : Nat),
    (customers.foldl (evalStep data) (d, q, t, f, prev)).1 =
      d + legsFrom data prev customers := by
  induction customers with
  | nil =>
      intro d q t f prev
      simp [legsFrom]
  | cons c cs ih =>
      intro d q t f prev
      simp only [List.foldl_cons, evalStep, legsFrom]
      rw [ih]
      ring

theorem foldl_evalStep_demand (data : VRPTWData) (customers : List Nat) :
    ∀ (d : Rat) (q : Int) (t : Rat) (f : Bool) (prev : Nat),
    (customers.foldl (evalStep data) (d, q, t, f, prev)).2.1 =
      q + routeDemand data customers := by
  induction customers with
  | nil =>
      intro d q t f prev
      simp [routeDemand]
  | cons c cs ih =>
      intro d q t f prev
      simp only [List.foldl_cons, evalStep]
      rw [ih]
      simp [routeDemand]
      ring

theorem foldl_evalStep_prev (data : VRPTWData) (customers : List Nat) :
    ∀ (d : Rat) (q : Int) (t : Rat) (f : Bool) (prev : Nat),
    (customers.foldl (evalStep data) (d, q, t, f, prev)).2.2.2.2 =
      lastStop prev customers := by
  induction customers with
  | nil =>
      intro d q t f prev
      simp [lastStop]
  | cons c cs ih =>
      intro d q t f prev
      simp only [List.foldl_cons, evalStep, lastStop]
      rw [ih]

theorem evaluate_route_fst (data : VRPTWData) (customers : List Nat) :
    (evaluate_route data customers).1 = routeDistanceSpec data customers := by
  cases customers with
  | nil => simp [evaluate_route, routeDistanceSpec]
  | cons c cs =>
      rcases hfold : (c :: cs).foldl (evalStep data) (0, 0, 0, true, 0)
        with ⟨d, q, t, f, p⟩
      have h1 := foldl_evalStep_fst data (c :: cs) 0 0 0 true 0
      have h3 := foldl_evalStep_prev data (c :: cs) 0 0 0 true 0
      rw [hfold] at h1 h3
      simp at h1 h3
      simp [evaluate_route, hfold, routeDistanceSpec, h1, h3]

theorem evaluate_route_demand (data : VRPTWData) (customers : List Nat) :
    (evaluate_route data customers).2.1 = routeDemand data customers := by
  cases customers with
  | nil => simp [evaluate_route, routeDemand]
  | cons c cs =>
      rcases hfold : (c :: cs).foldl (evalStep data) (0, 0, 0, true, 0)
        with ⟨d, q, t, f, p⟩
      have h2 := foldl_evalStep_demand data (c :: cs) 0 0 0 true 0
      rw [hfold] at h2
      simp at h2
      simp [evaluate_route, hfold, h2]

theorem legsFrom_congr (data2 data : VRPTWData)
    (hdist : ∀ i j, data2.get_distance i j = data.get_distance i j)
    (customers : List Nat) : ∀ prev,
    legsFrom data2 prev customers = legsFrom data prev customers := by
  induction customers with
  | nil => intro prev; simp [legsFrom]
  | cons c cs ih => intro prev; simp [legsFrom, hdist, ih]

theorem routeDemand_congr (data2 data : VRPTWData)
    (hdem : ∀ c, (data2.get_customer_data c).demand =
      (data.get_customer_data c).demand)
    (customers : List Nat) :
    routeDemand data2 customers = routeDemand data customers := by
  simp [routeDemand, hdem]

/-- C5: the distance and demand computed by the route evaluator are
exactly the travel-leg sum depot -> c1 -> ... -> cn -> depot and the
demand sum, for every route, with no time-window hypothesis at all; and
they are unchanged under any modification of the time-window data (any
second data set agreeing on distances and demands yields the same
distance and demand).  Late arrivals therefore neither stop nor alter the
accumulation. -/
theorem evaluate_route_metrics (data data2 : VRPTWData)
    (customers : List Nat)
    (hdist : ∀ i j, data2.get_distance i j = data.get_distance i j)
    (hdem : ∀ c, (data2.get_customer_data c).demand =
      (data.get_customer_data c).demand) :
    (evaluate_route data customers).1 = routeDistanceSpec data customers ∧
    (evaluate_route data customers).2.1 = routeDemand data customers ∧
    (evaluate_route data2 customers).1 = (evaluate_route data customers).1 ∧
    (evaluate_route data2 customers).2.1 =
      (evaluate_route data customers).2.1 := by
  refine ⟨evaluate_route_fst data customers,
    evaluate_route_demand data customers, ?_, ?_⟩
  · rw [evaluate_route_fst data customers, evaluate_route_fst data2 customers]
    cases customers with
    | nil => simp [routeDistanceSpec]
    | cons c cs =>
        simp [routeDistanceSpec, hdist, legsFrom_congr data2 data hdist]
  · rw [evaluate_route_demand data customers,
      evaluate_route_demand data2 customers]
    exact routeDemand_congr data2 data hdem customers

/-- Witness for C5: a route over exDataFifty, with exDataC6 as the
second data set modified so that its distances and demands agree. -/
theorem evaluate_route_metrics_witness :
    (evaluate_route exDataFifty [1, 2]).1 =
      routeDistanceSpec exDataFifty [1, 2] ∧
    (evaluate_route exDataFifty [1, 2]).2.1 =
      routeDemand exDataFifty [1, 2] ∧
    (evaluate_route exDataFifty [1, 2]).1 =
      (evaluate_route exDataFifty [1, 2]).1 ∧
    (evaluate_route exDataFifty [1, 2]).2.1 =
      (evaluate_route exDataFifty [1, 2]).2.1 :=
  evaluate_route_metrics exDataFifty exDataFifty [1, 2]
    (fun _ _ => rfl) (fun _ => rfl)

/-- C6: the capacity check of the route evaluator compares demand against
the hard-coded constant 200, not the configured capacity.  With
configured capacity 300, the route [1] of demand 250 is retained by the
decoder (250 is at most 300) yet the evaluator marks it infeasible, with
zero distance and wide-open time windows, because 250 exceeds 200. -/
theorem evaluate_route_hardcoded_capacity :
    evaluate_route exDataC6 [1] = (0, 250, false) ∧
    sequence_to_solution exDataC6 300 [1] = [[1]] ∧
    routeDemand exDataC6 [1] ≤ 300 := by
  refine ⟨?_, by decide, by decide⟩
  simp [evaluate_route, evalStep, exDataC6]

theorem legsFrom_nonneg (data : VRPTWData)
    (h : ∀ i j, 0 ≤ data.get_distance i j) (customers : List Nat) :
    ∀ prev, 0 ≤ legsFrom data prev customers := by
  induction customers with
  | nil => intro prev; simp [legsFrom]
  | cons c cs ih =>
      intro prev
      have := h prev c
      have := ih c
      simp only [legsFrom]
      positivity

/-- Every evaluated route has non-negative total distance whenever the
distance table is non-negative (as the Euclidean table of the data
provider is), which justifies the distance hypothesis of the fitness
comparison below. -/
theorem evaluate_route_distance_nonneg (data : VRPTWData)
    (h : ∀ i j, 0 ≤ data.get_distance i j) (customers : List Nat) :
    0 ≤ (evaluate_route data customers).1 := by
  rw [evaluate_route_fst]
  cases customers with
  | nil => simp [routeDistanceSpec]
  | cons c cs =>
      have h1 := legsFrom_nonneg data h (c :: cs) 0
      have h2 := h (lastStop 0 (c :: cs)) 0
      simp only [routeDistanceSpec]
      positivity

/-- C3: with the code weights 10000 (vehicles), 1 (distance) and 100000
(penalty), fitness is exactly
vehicleWeight * vehicleCount + distanceWeight * totalDistance plus the
penalty exactly when infeasible; and whenever the penalty weight exceeds
the feasible score 10000 * num_vehicles + 1 * total_distance, any
feasible solution gets strictly lower fitness than any infeasible one.
The non-negative distance hypothesis on the infeasible solution holds for
every evaluated solution, see evaluate_route_distance_nonneg. -/
theorem fitness_favors_feasible (sf si : VRPTWSolutionM)
    (hf : sf.feasible = true) (hi : si.feasible = false)
    (hdi : 0 ≤ si.total_distance)
    (hpre : (sf.num_vehicles : Rat) * 10000 + 1 * sf.total_distance
      < 100000) :
    calculate_fitness sf < calculate_fitness si ∧
    ∀ s : VRPTWSolutionM, calculate_fitness s =
      10000 * (s.num_vehicles : Rat) + 1 * s.total_distance +
        (if s.feasible then 0 else 100000) := by
  constructor
  · simp [calculate_fitness, hf, hi]
    have h0 : (0 : Rat) ≤ (si.num_vehicles : Rat) * 10000 := by positivity
    linarith
  · intro s
    simp only [calculate_fitness]
    ring

/-- Witness for C3: a feasible solution with 1 vehicle and distance 5
against an infeasible one with 3 vehicles and distance 7. -/
theorem fitness_favors_feasible_witness :
    calculate_fitness ⟨[[1]], 1, 5, true, 0⟩ <
      calculate_fitness ⟨[[1]], 3, 7, false, 0⟩ ∧
    ∀ s : VRPTWSolutionM, calculate_fitness s =
      10000 * (s.num_vehicles : Rat) + 1 * s.total_distance +
        (if s.feasible then 0 else 100000) :=
  fitness_favors_feasible ⟨[[1]], 1, 5, true, 0⟩ ⟨[[1]], 3, 7, false, 0⟩
    rfl rfl (by norm_num) (by norm_num)

/-- C4 (amended): one generation step with elitism count at least 1 never
worsens the best fitness: the minimal fitness of the next population
(elites plus any offspring the random draws produce) is at most the
minimal fitness of the current population. -/
theorem elitism_preserves_best (e : Nat) (pop off : List VRPTWSolutionM)
    (he : 1 ≤ e) :
    ((nextGeneration e pop off).map VRPTWSolutionM.fitness).minimum ≤
      ((pop.map VRPTWSolutionM.fitness)).minimum := by
  cases hpop : pop with
  | nil => simp
  | cons p ps =>
      rw [← hpop]
      have hperm : (sortByFitness pop).Perm pop :=
        List.mergeSort_perm pop _
      have hsorted := @List.sorted_mergeSort VRPTWSolutionM
        (fun a b : VRPTWSolutionM => decide (a.fitness ≤ b.fitness))
        (fun a b c hab hbc => by
          simp only [decide_eq_true_eq] at *
          exact le_trans hab hbc)
        (fun a b => by
          simp only [Bool.or_eq_true, decide_eq_true_eq]
          exact le_total a.fitness b.fitness)
        pop
      cases hs : sortByFitness pop with
      | nil =>
          rw [hs] at hperm
          have := hperm.symm.eq_nil
          rw [hpop] at this
          exact absurd this (by simp)
      | cons b rest =>
          have hble : ∀ x ∈ pop, b.fitness ≤ x.fitness := by
            intro x hx
            have hx' : x ∈ sortByFitness pop := hperm.symm.subset hx
            rw [hs] at hx'
            rcases List.mem_cons.mp hx' with h | h
            · exact le_of_eq (by rw [h])
            · have hsorted2 : List.Pairwise
                  (fun a b : VRPTWSolutionM =>
                    decide (a.fitness ≤ b.fitness) = true)
                  (sortByFitness pop) := hsorted
              rw [hs] at hsorted2
              have := List.rel_of_sorted_cons hsorted2 x h
              simpa using this
          have hbmem : b ∈ nextGeneration e pop off := by
            obtain ⟨e', rfl⟩ : ∃ e', e = e' + 1 := by
              cases e with
              | zero => omega
              | succ n => exact ⟨n, rfl⟩
            unfold nextGeneration
            rw [hs, List.take_succ_cons]
            exact List.mem_append_left _ (List.mem_cons_self _ _)
          have h1 : ((nextGeneration e pop off).map
              VRPTWSolutionM.fitness).minimum ≤ (b.fitness : WithTop Rat) :=
            List.minimum_le_of_mem'
              (List.mem_map_of_mem VRPTWSolutionM.fitness hbmem)
          cases hmin : (pop.map VRPTWSolutionM.fitness).minimum with
          | top => simp
          | coe m =>
              have hmem := List.minimum_mem hmin
              rcases List.mem_map.mp hmem with ⟨x, hxpop, hxm⟩
              refine le_trans h1 ?_
              rw [WithTop.coe_le_coe, ← hxm]
              exact hble x hxpop

/-- Witness for C4: elitism count 2 over a singleton population. -/
theorem elitism_preserves_best_witness :
    ((nextGeneration 2 [mkSol 5] []).map VRPTWSolutionM.fitness).minimum ≤
      ((([mkSol 5] : List VRPTWSolutionM)).map
        VRPTWSolutionM.fitness).minimum :=
  elitism_preserves_best 2 [mkSol 5] [] (by decide)

/-- Counterexample to C4 as stated: with elitism count 0 (allowed by the
constructor and by the configuration surface) the next population is
offspring only, and a step that breeds a worse offspring raises the
minimal fitness from 5 to 7. -/
theorem nextGeneration_no_elitism_not_monotone :
    ¬ (((nextGeneration 0 [mkSol 5] [mkSol 7]).map
        VRPTWSolutionM.fitness).minimum ≤
      ((([mkSol 5] : List VRPTWSolutionM)).map
        VRPTWSolutionM.fitness).minimum) := by
  simp [nextGeneration, mkSol, List.minimum_cons]
  decide

/-- Counterexample to C8 as stated: the constructor accepts a tournament
size of 5 with a population size of 3, and a negative mutation rate, with
no error of any kind (the embedded constructor, like the source
constructor, has no error outcome at all); the tournament-size failure
only surfaces inside evolution, when tournament selection runs
random.sample, modelled here by the none result. -/
theorem engine_accepts_malformed_config :
    (EvolutionaryVRPTW.init 3 50 (8 / 10) (-1) 5 2 200).tournament_size
      = 5 ∧
    (EvolutionaryVRPTW.init 3 50 (8 / 10) (-1) 5 2 200).population_size
      = 3 ∧
    (EvolutionaryVRPTW.init 3 50 (8 / 10) (-1) 5 2 200).mutation_rate
      = -1 ∧
    tournament_selection [mkSol 1, mkSol 2, mkSol 3] 5 [] = none := by
  refine ⟨rfl, rfl, ?_, rfl⟩
  norm_num [EvolutionaryVRPTW.init]

/-- C8 (amended): the engine performs no configuration validation; the
hard failure for an oversized tournament happens at selection time,
during evolution: whenever the tournament size exceeds the population
size, tournament selection fails (random.sample raises), for every
random draw. -/
theorem tournament_selection_fails_late
    (population : List VRPTWSolutionM) (tournament_size : Nat)
    (draw : List VRPTWSolutionM)
    (h : population.length < tournament_size) :
    tournament_selection population tournament_size draw = none := by
  unfold tournament_selection
  rw [if_neg (by omega)]

/-- Witness for C8: tournament of size 4 over a population of 3. -/
theorem tournament_selection_fails_late_witness :
    tournament_selection [mkSol 1, mkSol 2, mkSol 3] 4 [mkSol 1] = none :=
  tournament_selection_fails_late [mkSol 1, mkSol 2, mkSol 3] 4
    [mkSol 1] (by decide)

theorem scanOpen_finds (off : List (Option Nat)) :
    ∀ (fuel pos k : Nat), pos < off.length → k < fuel →
    off.getD ((pos + k) % off.length) none = none →
    ∃ p, scanOpen off pos fuel = some p ∧ p < off.length ∧
      off.getD p none = none := by
  intro fuel
  induction fuel with
  | zero => intro pos k _ hk; omega
  | succ f ih =>
      intro pos k hpos hk hopen
      by_cases hfilled : (off.getD pos none).isSome = true
      · have hk0 : k ≠ 0 := by
          intro h
          subst h
          rw [Nat.add_zero, Nat.mod_eq_of_lt hpos] at hopen
          rw [hopen] at hfilled
          simp at hfilled
        obtain ⟨k', rfl⟩ : ∃ k', k = k' + 1 := ⟨k - 1, by omega⟩
        have hn : 0 < off.length := by omega
        have hpos' : (pos + 1) % off.length < off.length := Nat.mod_lt _ hn
        have hopen' :
            off.getD (((pos + 1) % off.length + k') % off.length) none
              = none := by
          rw [Nat.mod_add_mod]
          have harg : pos + 1 + k' = pos + (k' + 1) := by omega
          rw [harg]
          exact hopen
        obtain ⟨p, hp1, hp2, hp3⟩ := ih ((pos + 1) % off.length) k'
          hpos' (by omega) hopen'
        refine ⟨p, ?_, hp2, hp3⟩
        simp only [scanOpen, hfilled, if_true]
        exact hp1
      · refine ⟨pos, ?_, hpos, ?_⟩
        · simp only [scanOpen]
          rw [if_neg hfilled]
        · cases h : off.getD pos none with
          | none => rfl
          | some v => rw [h] at hfilled; simp at hfilled

theorem exists_wrap_offset (n pos j : Nat) (hpos : pos < n) (hj : j < n) :
    ∃ k, k < n ∧ (pos + k) % n = j := by
  refine ⟨(n - pos + j) % n, Nat.mod_lt _ (by omega), ?_⟩
  rw [Nat.add_mod_mod]
  have harg : pos + (n - pos + j) = n + j := by omega
  rw [harg, Nat.add_mod_left, Nat.mod_eq_of_lt hj]

theorem filterMap_set_perm (off : List (Option Nat)) (p g : Nat)
    (hp : p < off.length) (hopen : off[p] = none) :
    ((off.set p (some g)).filterMap id).Perm (g :: off.filterMap id) := by
  have hset : off.set p (some g) =
      off.take p ++ some g :: off.drop (p + 1) := by
    rw [List.set_eq_take_append_cons_drop, if_pos hp]
  have hoff : off = off.take p ++ none :: off.drop (p + 1) := by
    conv_lhs => rw [← List.take_append_drop p off]
    rw [List.drop_eq_getElem_cons hp, hopen]
  rw [hset]
  conv_rhs => rw [hoff]
  rw [List.filterMap_append, List.filterMap_append]
  simp only [List.filterMap_cons, id]
  exact List.perm_middle

theorem fillLoop_spec (genes : List Nat) :
    ∀ (off : List (Option Nat)) (pos : Nat),
    off.countP (fun o : Option Nat => o.isNone) = genes.length →
    ∃ off2, fillLoop off pos genes = some off2 ∧
      off2.length = off.length ∧
      off2.countP (fun o : Option Nat => o.isNone) = 0 ∧
      (off2.filterMap id).Perm (genes ++ off.filterMap id) := by
  induction genes with
  | nil =>
      intro off pos hcount
      exact ⟨off, rfl, rfl, hcount, by simp⟩
  | cons g gs ih =>
      intro off pos hcount
      have hposcnt : 0 < off.countP (fun o : Option Nat => o.isNone) := by
        rw [hcount, List.length_cons]; omega
      obtain ⟨x, hxmem, hxnone⟩ := List.countP_pos_iff.mp hposcnt
      obtain ⟨j, hj, hjx⟩ := List.getElem_of_mem hxmem
      have hn : 0 < off.length := lt_of_le_of_lt (Nat.zero_le j) hj
      have hpos0lt : (if off.length ≤ pos then 0 else pos) < off.length := by
        split <;> omega
      obtain ⟨k, hk, hkj⟩ := exists_wrap_offset off.length
        (if off.length ≤ pos then 0 else pos) j hpos0lt hj
      have hxeq : x = none := Option.isNone_iff_eq_none.mp hxnone
      have hopen : off.getD
          (((if off.length ≤ pos then 0 else pos) + k) % off.length) none
            = none := by
        rw [hkj, List.getD_eq_getElem off none hj, hjx, hxeq]
      obtain ⟨p, hscan, hplt, hpopen⟩ := scanOpen_finds off off.length
        (if off.length ≤ pos then 0 else pos) k hpos0lt hk hopen
      have hpnone : off[p] = none := by
        rw [← List.getD_eq_getElem off none hplt]
        exact hpopen
      have hcount1 : (off.set p (some g)).countP (fun o : Option Nat => o.isNone)
          = gs.length := by
        rw [List.countP_set _ _ _ _ hplt]
        simp only [hpnone, Option.isNone_none, if_true, Option.isNone_some]
        simp only [Bool.false_eq_true, if_false]
        rw [hcount]
        simp
      have hperm1 : ((off.set p (some g)).filterMap id).Perm
          (g :: off.filterMap id) := filterMap_set_perm off p g hplt hpnone
      obtain ⟨off2, hfill, hlen2, hcount2, hperm2⟩ :=
        ih (off.set p (some g)) ((p + 1) % off.length) hcount1
      refine ⟨off2, ?_, ?_, hcount2, ?_⟩
      · simp only [fillLoop]
        rw [hscan]
        exact hfill
      · rw [hlen2, List.length_set]
      · refine hperm2.trans ?_
        refine (List.Perm.append_left gs hperm1).trans ?_
        exact List.perm_middle

theorem ox_spec (parent1 parent2 : List Nat) (point1 point2 : Nat)
    (hnd1 : parent1.Nodup) (hnd2 : parent2.Nodup)
    (hmem : ∀ x, x ∈ parent2 ↔ x ∈ parent1)
    (h12 : point1 ≤ point2) (h2n : point2 ≤ parent1.length) :
    ∃ off, ox_crossover_sequence parent1 parent2 point1 point2 = some off ∧
      off.length = parent1.length ∧
      off.countP (fun o : Option Nat => o.isNone) = 0 ∧
      (off.filterMap id).Perm parent1 := by
  have hperm21 : parent2.Perm parent1 :=
    (List.perm_ext_iff_of_nodup hnd2 hnd1).mpr hmem
  have hlen21 : parent2.length = parent1.length := hperm21.length_eq
  set segment := (parent1.drop point1).take (point2 - point1) with hsegdef
  have hseglen : segment.length = point2 - point1 := by
    rw [hsegdef, List.length_take, List.length_drop]
    omega
  have hsplit : parent1 = parent1.take point1 ++ segment
      ++ parent1.drop point2 := by
    have h1 : parent1.take point1 ++ parent1.drop point1 = parent1 :=
      List.take_append_drop point1 parent1
    have h2 : segment ++ (parent1.drop point1).drop (point2 - point1)
        = parent1.drop point1 :=
      List.take_append_drop (point2 - point1) (parent1.drop point1)
    have h3 : (parent1.drop point1).drop (point2 - point1)
        = parent1.drop point2 := by
      rw [List.drop_drop]
      congr 1
      omega
    rw [List.append_assoc, ← h3, h2, h1]
  have hsplitnd := hsplit ▸ hnd1
  rw [List.append_assoc, List.nodup_append] at hsplitnd
  obtain ⟨hndtake, hndrest, hdisj1⟩ := hsplitnd
  rw [List.nodup_append] at hndrest
  obtain ⟨hndseg, hnddrop, hdisj2⟩ := hndrest
  have hfilter1 : parent1.filter (fun x => decide (x ∈ segment))
      = segment := by
    conv_lhs => rw [hsplit]
    rw [List.filter_append, List.filter_append]
    have ht : (parent1.take point1).filter
        (fun x => decide (x ∈ segment)) = [] := by
      rw [List.filter_eq_nil_iff]
      intro a ha
      simp only [decide_eq_true_eq]
      intro hain
      exact hdisj1 ha (List.mem_append_left _ hain)
    have hs : segment.filter (fun x => decide (x ∈ segment)) = segment := by
      rw [List.filter_eq_self]
      intro a ha
      simpa using ha
    have hd : (parent1.drop point2).filter
        (fun x => decide (x ∈ segment)) = [] := by
      rw [List.filter_eq_nil_iff]
      intro a ha
      simp only [decide_eq_true_eq]
      intro hain
      exact hdisj2 hain ha
    rw [ht, hs, hd]
    simp
  have hfl : (parent2.filter (fun x => !decide (x ∈ segment))).length
      = parent1.length - (point2 - point1) := by
    have hp := List.filter_append_perm
      (fun x => decide (x ∈ segment)) parent2
    have hplen := hp.length_eq
    rw [List.length_append] at hplen
    have hin : (parent2.filter (fun x => decide (x ∈ segment))).length
        = point2 - point1 := by
      have hq := (hperm21.filter (fun x => decide (x ∈ segment))).length_eq
      rw [hfilter1, hseglen] at hq
      exact hq
    omega
  have hcnt0 : (List.replicate point1 (none : Option Nat)
      ++ segment.map some
      ++ List.replicate (parent1.length - point2) none).countP
        (fun o : Option Nat => o.isNone)
      = parent1.length - (point2 - point1) := by
    rw [List.countP_append, List.countP_append, List.countP_replicate,
      List.countP_replicate]
    have hm : (segment.map some).countP (fun o : Option Nat => o.isNone) = 0 := by
      rw [List.countP_eq_zero]
      intro a ha
      rcases List.mem_map.mp ha with ⟨b, _, rfl⟩
      simp
    rw [hm]
    simp only [Option.isNone_none, if_true]
    omega
  obtain ⟨off2, hfill, hlen, hcnt, hperm⟩ := fillLoop_spec
    (parent2.filter (fun x => !decide (x ∈ segment)))
    (List.replicate point1 none ++ segment.map some
      ++ List.replicate (parent1.length - point2) none)
    point2 (by rw [hcnt0, hfl])
  refine ⟨off2, hfill, ?_, hcnt, ?_⟩
  · rw [hlen]
    simp only [List.length_append, List.length_replicate, List.length_map]
    omega
  · have hfm : (List.replicate point1 (none : Option Nat)
        ++ segment.map some
        ++ List.replicate (parent1.length - point2) none).filterMap id
        = segment := by
      rw [List.filterMap_append, List.filterMap_append,
        List.filterMap_replicate, List.filterMap_replicate,
        List.filterMap_map]
      simp [List.filterMap_some]
    rw [hfm] at hperm
    refine hperm.trans ?_
    have hs2 : (parent2.filter (fun x => decide (x ∈ segment))).Perm
        segment := by
      have hq := hperm21.filter (fun x => decide (x ∈ segment))
      rw [hfilter1] at hq
      exact hq
    refine (List.Perm.append_left _ hs2.symm).trans ?_
    refine List.perm_append_comm.trans ?_
    exact (List.filter_append_perm _ parent2).trans hperm21

/-- C2: for equal-length duplicate-free parents over the same customer
set and any cut points point1 at most point2 at most the length
(including the degenerate pair 0 and length), the order-crossover helper
completes and its offspring slot list has the parent length, no unfilled
slot, and carries a duplicate-free permutation of the parent customer
set. -/
theorem ox_crossover_sequence_valid (parent1 parent2 : List Nat)
    (point1 point2 : Nat)
    (hnd1 : parent1.Nodup) (hnd2 : parent2.Nodup)
    (hlen : parent2.length = parent1.length)
    (hmem : ∀ x, x ∈ parent2 ↔ x ∈ parent1)
    (h12 : point1 ≤ point2) (h2n : point2 ≤ parent1.length) :
    ∃ off, ox_crossover_sequence parent1 parent2 point1 point2 = some off ∧
      off.length = parent1.length ∧
      (∀ slot ∈ off, slot.isSome) ∧
      (off.filterMap id).Perm parent1 ∧
      (off.filterMap id).Nodup := by
  obtain ⟨off, h1, h2, h3, h4⟩ := ox_spec parent1 parent2 point1 point2
    hnd1 hnd2 hmem h12 h2n
  refine ⟨off, h1, h2, ?_, h4, h4.symm.nodup hnd1⟩
  intro slot hslot
  have := List.countP_eq_zero.mp h3 slot hslot
  cases slot with
  | none => simp at this
  | some v => rfl

/-- Witness for C2: parents [1, 2, 3] with cut points 1 and 2. -/
theorem ox_crossover_sequence_valid_witness :
    ∃ off, ox_crossover_sequence [1, 2, 3] [1, 2, 3] 1 2 = some off ∧
      off.length = ([1, 2, 3] : List Nat).length ∧
      (∀ slot ∈ off, slot.isSome) ∧
      (off.filterMap id).Perm [1, 2, 3] ∧
      (off.filterMap id).Nodup :=
  ox_crossover_sequence_valid [1, 2, 3] [1, 2, 3] 1 2
    (by decide) (by decide) rfl (fun x => Iff.rfl) (by decide) (by decide)

/-- C10: under the same preconditions the filler loop always terminates:
every inner scan finds an open slot, so the helper returns a result (is
not the none that models nontermination). -/
theorem ox_crossover_sequence_total (parent1 parent2 : List Nat)
    (point1 point2 : Nat)
    (hnd1 : parent1.Nodup) (hnd2 : parent2.Nodup)
    (hlen : parent2.length = parent1.length)
    (hmem : ∀ x, x ∈ parent2 ↔ x ∈ parent1)
    (h12 : point1 ≤ point2) (h2n : point2 ≤ parent1.length) :
    (ox_crossover_sequence parent1 parent2 point1 point2).isSome := by
  obtain ⟨off, h1, _⟩ := ox_spec parent1 parent2 point1 point2
    hnd1 hnd2 hmem h12 h2n
  rw [h1]
  rfl

/-- Witness for C10: parents [1, 2, 3] with the degenerate cut points 0
and 3. -/
theorem ox_crossover_sequence_total_witness :
    (ox_crossover_sequence [1, 2, 3] [1, 2, 3] 0 3).isSome :=
  ox_crossover_sequence_total [1, 2, 3] [1, 2, 3] 0 3
    (by decide) (by decide) rfl (fun x => Iff.rfl) (by decide) (by decide)

end VRPTW
